import Mathlib

/-
Verification of the gallery-search worker (src/workers/gallery-search/index.js).

The worker's handlers are embedded as pure Lean functions.  The two external
collaborators — the Workers AI embedding model (env.AI.run) and the Vectorize
index (env.GALLERY_INDEX.upsert / query) — are passed in as oracle functions
returning Except, which models a JavaScript call that either resolves or
throws; a thrown error propagates to the top-level try/catch in fetch, which
returns a 500 response carrying only the error message.  Each handler also
returns the trace of oracle calls it issued, in order, so that properties
about the number, order and contents of embedding and upsert calls can be
stated.  Embedding vectors and similarity scores are opaque data to the
worker, modelled as lists of integers and integers respectively.
-/

namespace GallerySearch

/-- Vectors returned by the embedding model; the worker never inspects their
contents, so the element type is irrelevant. -/
abbrev Vec := List Int

/-- JavaScript split on the separator "," applied to a list of characters:
every comma starts a new segment, and the list of segments is returned
(an empty input yields one empty segment, as in JavaScript). -/
def splitComma : List Char → List (List Char)
  | [] => [[]]
  | c :: rest =>
    if c = ',' then [] :: splitComma rest
    else
      match splitComma rest with
      | [] => [[c]]
      | g :: gs => (c :: g) :: gs

/-- JavaScript String.prototype.split with separator "," on a String. -/
def jsSplitComma (s : String) : List String :=
  (splitComma s.data).map (fun l => String.mk l)

/-- JavaScript String.prototype.trim: drop whitespace from both ends. -/
def jsTrim (s : String) : String :=
  String.mk (((s.data.dropWhile Char.isWhitespace).reverse.dropWhile Char.isWhitespace).reverse)

/-- The raw tags field of a request body: a JSON array of strings, a plain
string, or absent (undefined / null).  These are the shapes the worker
distinguishes with Array.isArray and the falsy-coalescing (tags or empty). -/
inductive RawTags where
  | arr (l : List String)
  | str (s : String)
  | absent
deriving DecidableEq

/-- The tags value stored in upserted metadata, from index.js lines 187 and
245: Array.isArray(tags) ? tags : (tags or empty).split(",").map(t => t.trim()).
Note there is no filter dropping empty segments on this path. -/
def metaTags : RawTags → List String
  | .arr l => l
  | .str s => (jsSplitComma s).map jsTrim
  | .absent => (jsSplitComma "").map jsTrim

/-- JavaScript Array.prototype.join with the given separator string. -/
def jsJoin (sep : String) : List String → String
  | [] => ""
  | [x] => x
  | x :: rest => x ++ sep ++ jsJoin sep rest

/-- The tags component of the embedded text, from index.js lines 170 and 231:
Array.isArray(tags) ? tags.join(" ") : (tags or empty). -/
def tagsText : RawTags → String
  | .arr l => jsJoin " " l
  | .str s => s
  | .absent => ""

/-- A raw image record as supplied in a request body; absent optional string
fields are none (JavaScript undefined). -/
structure RawImage where
  id : Option String
  tags : RawTags
  alt : Option String
  caption : Option String
  project : Option String
  src : Option String
  thumb : Option String
deriving DecidableEq

/-- Value of (field or empty) for an optional string field: JavaScript
x or-else empty string is the identity on strings (the empty string maps to
itself) and turns undefined into the empty string. -/
def orEmpty (o : Option String) : String := o.getD ""

/-- The text generated for embedding, from index.js lines 167-172 and
227-234: the four components in fixed order, falsy (empty) components
filtered out, joined with ". ". -/
def textForEmbedding (img : RawImage) : String :=
  jsJoin ". "
    (([orEmpty img.caption, orEmpty img.alt, tagsText img.tags,
       orEmpty img.project]).filter (fun s => s ≠ ""))

/-- The metadata object stored with each vector: exactly the six fields
built at index.js lines 186-193 and 244-251. -/
structure Metadata where
  tags : List String
  alt : String
  caption : String
  project : String
  src : String
  thumb : String
deriving DecidableEq

/-- Metadata as built by handleIndex and handleIndexBatch from a raw image. -/
def mkMetadata (img : RawImage) : Metadata where
  tags := metaTags img.tags
  alt := orEmpty img.alt
  caption := orEmpty img.caption
  project := orEmpty img.project
  src := orEmpty img.src
  thumb := orEmpty img.thumb

/-- A record passed to GALLERY_INDEX.upsert.  The id can be absent in the
batch path (the worker does not validate per-item ids there) and the values
field is the idx-th element of the embedding response data, which is absent
when the response is shorter than the batch. -/
structure VecRecord where
  id : Option String
  values : Option Vec
  metadata : Metadata
deriving DecidableEq

/-- Error message of handleIndex for a missing id, index.js line 163. -/
def missingIdMsg : String := "Missing \"id\" field"

/-- Error message of handleIndex for empty embeddable text, line 175. -/
def noTextMsg : String := "No text content to embed (provide caption, alt, or tags)"

/-- Error message of handleIndexBatch for a bad images field, line 216. -/
def emptyBatchMsg : String := "Missing or empty \"images\" array"

/-- Error message of handleSearch for a bad query field, line 81. -/
def invalidQueryMsg : String := "Missing or invalid \"query\" field"

/-- Response of the POST /index route: ok carries the echoed id; clientError
is a 400 jsonResponse from the handler; serverError is the 500 produced by
the try/catch in fetch when an awaited oracle call throws. -/
inductive IndexResponse where
  | ok (id : String)
  | clientError (msg : String)
  | serverError (msg : String)
deriving DecidableEq

/-- The handler of POST /index (index.js lines 158-205), returning the
response together with the traces of embedding calls (lists of texts) and
upsert calls (lists of records) issued, in order. -/
def handleIndex (embed : List String → Except String (List Vec))
    (upsert : List VecRecord → Except String Unit) (img : RawImage) :
    IndexResponse × List (List String) × List (List VecRecord) :=
  match img.id with
  | none => (.clientError missingIdMsg, [], [])
  | some i =>
    if i = "" then (.clientError missingIdMsg, [], [])
    else
      let text := textForEmbedding img
      if text = "" then (.clientError noTextMsg, [], [])
      else
        match embed [text] with
        | .error e => (.serverError e, [[text]], [])
        | .ok data =>
          let record : VecRecord := ⟨some i, data[0]?, mkMetadata img⟩
          match upsert [record] with
          | .error e => (.serverError e, [[text]], [[record]])
          | .ok _ => (.ok i, [[text]], [[record]])

/-- The chunking loop of handleIndexBatch, index.js lines 220-224: the for
loop advances i by batchSize = 10 and slices images.slice(i, i + 10).  The
fuel argument bounds the number of iterations; the loop runs at most
images.length iterations, so chunks10 supplies that as fuel. -/
def chunksFuel : Nat → List RawImage → List (List RawImage)
  | _, [] => []
  | 0, _ :: _ => []
  | fuel + 1, x :: xs => (x :: xs).take 10 :: chunksFuel fuel ((x :: xs).drop 10)

/-- The chunks of size 10 that handleIndexBatch processes, in order. -/
def chunks10 (l : List RawImage) : List (List RawImage) :=
  chunksFuel l.length l

/-- The vectors array built for one chunk, index.js lines 241-252:
batch.map((img, idx) => ({id, values: data[idx], metadata})). -/
def mkVectors (data : List Vec) : List RawImage → Nat → List VecRecord
  | [], _ => []
  | img :: rest, idx => ⟨img.id, data[idx]?, mkMetadata img⟩ :: mkVectors data rest (idx + 1)

/-- Trace and outcome of the chunk loop of handleIndexBatch: the embedding
calls issued (their text lists), the upsert calls issued, the upsert calls
that completed successfully (whose records are durably indexed), the
accumulated results array, and the first error thrown, if any. -/
structure BatchRun where
  embedCalls : List (List String)
  upsertCalls : List (List VecRecord)
  durable : List (List VecRecord)
  results : List (Option String × Bool)
  failure : Option String
deriving DecidableEq

/-- Response of the POST /index-batch route. -/
inductive BatchResponse where
  | ok (indexed : Nat) (results : List (Option String × Bool))
  | clientError (msg : String)
  | serverError (msg : String)
deriving DecidableEq

/-- The sequential chunk loop of handleIndexBatch (index.js lines 223-257).
The oracles take the chunk index (number of chunks already processed) so a
specific call can be made to fail.  A thrown error stops the loop. -/
def processChunks (embed : Nat → List String → Except String (List Vec))
    (upsert : Nat → List VecRecord → Except String Unit) :
    List (List RawImage) → Nat → BatchRun
  | [], _ => ⟨[], [], [], [], none⟩
  | batch :: rest, k =>
    let texts := batch.map textForEmbedding
    match embed k texts with
    | .error e => ⟨[texts], [], [], [], some e⟩
    | .ok data =>
      let vectors := mkVectors data batch 0
      match upsert k vectors with
      | .error e => ⟨[texts], [vectors], [], [], some e⟩
      | .ok _ =>
        let r := processChunks embed upsert rest (k + 1)
        ⟨texts :: r.embedCalls, vectors :: r.upsertCalls, vectors :: r.durable,
         batch.map (fun img => (img.id, true)) ++ r.results, r.failure⟩

/-- The images field of a POST /index-batch body: either not an array
(missing, null, or any non-array value) or an array of raw images. -/
inductive ImagesField where
  | notArray
  | arr (l : List RawImage)

/-- The handler of POST /index-batch (index.js lines 211-260), returning the
response and the run trace.  On full success the response carries
results.length as the indexed count and the per-item results; a thrown
error from an oracle call surfaces as a 500 with only the error message. -/
def handleIndexBatch (embed : Nat → List String → Except String (List Vec))
    (upsert : Nat → List VecRecord → Except String Unit)
    (images : ImagesField) : BatchResponse × BatchRun :=
  match images with
  | .notArray => (.clientError emptyBatchMsg, ⟨[], [], [], [], none⟩)
  | .arr l =>
    if l.isEmpty then (.clientError emptyBatchMsg, ⟨[], [], [], [], none⟩)
    else
      let run := processChunks embed upsert (chunks10 l) 0
      match run.failure with
      | some e => (.serverError e, run)
      | none => (.ok run.results.length run.results, run)

/-- The success count a response surfaces to the caller, if any: only the
ok shape carries an indexed count. -/
def reportedCount : BatchResponse → Option Nat
  | .ok n _ => some n
  | .clientError _ => none
  | .serverError _ => none

/-- The query field of a POST /search body: a string value, a non-string
value (with its JavaScript truthiness), or absent.  The guard at index.js
line 80, not query or typeof query is not string, rejects exactly the
shapes other than a non-empty string. -/
inductive QueryField where
  | str (s : String)
  | nonString (truthy : Bool)
  | absent
deriving DecidableEq

/-- A match returned by GALLERY_INDEX.query; metadata can be absent. -/
structure SearchMatch where
  id : String
  score : Int
  metadata : Option Metadata
deriving DecidableEq

/-- A formatted search result, index.js lines 98-102; a none metadata stands
for the empty-object fallback, metadata or empty object. -/
structure SearchResult where
  id : String
  score : Int
  metadata : Option Metadata
deriving DecidableEq

/-- Response of the POST /search route. -/
inductive SearchResponse where
  | ok (results : List SearchResult)
  | clientError (msg : String)
  | serverError (msg : String)
deriving DecidableEq

/-- The handler of POST /search (index.js lines 76-105), returning the
response and the trace of topK values passed to GALLERY_INDEX.query.  The
limit argument is the body field, defaulting to 20 when absent; the topK
passed to the index is Math.min(limit, 100), line 93. -/
def handleSearch (embed : List String → Except String (List Vec))
    (queryIdx : Option Vec → Int → Except String (List SearchMatch))
    (query : QueryField) (limit : Option Int) : SearchResponse × List Int :=
  match query with
  | .str s =>
    if s = "" then (.clientError invalidQueryMsg, [])
    else
      match embed [s] with
      | .error e => (.serverError e, [])
      | .ok data =>
        let topK : Int := min (limit.getD 20) 100
        match queryIdx data[0]? topK with
        | .error e => (.serverError e, [topK])
        | .ok ms =>
          (.ok (ms.map (fun m => ⟨m.id, m.score, m.metadata⟩)), [topK])
  | _ => (.clientError invalidQueryMsg, [])

/-- Lexicographic comparison of character lists by code point, the order
JavaScript Array.prototype.sort applies to strings by default. -/
def lexLeB : List Char → List Char → Bool
  | [], _ => true
  | _ :: _, [] => false
  | a :: as, b :: bs =>
    if a.toNat < b.toNat then true
    else if b.toNat < a.toNat then false
    else lexLeB as bs

/-- Default JavaScript string sort order on String values. -/
def strLeB (a b : String) : Bool := lexLeB a.data b.data

/-- Ascending sort of a list of strings, modelling Array.prototype.sort. -/
def sortStrings (l : List String) : List String :=
  List.insertionSort (fun a b => strLeB a b = true) l

/-- Insertion into the collected tag list, modelling Set.prototype.add: a
value already present is not added again, a new one goes to the end. -/
def insertSet (s : List String) (t : String) : List String :=
  if t ∈ s then s else s ++ [t]

/-- Adding one match to the tag collection, index.js lines 122-129: tags in
the match metadata are iterated into the set.  Stored tags are always an
array (see mkMetadata), so the string fallback branch at lines 126-127 is
unreachable for records indexed by this worker and has no counterpart in
the Metadata type. -/
def addTags (s : List String) (m : SearchMatch) : List String :=
  match m.metadata with
  | none => s
  | some md => md.tags.foldl insertSet s

/-- Tag aggregation of handleGetTags over the matches returned by the
listAll query, index.js lines 121-131: collect into a Set, spread, sort. -/
def listTagsFrom (ms : List SearchMatch) : List String :=
  sortStrings (ms.foldl addTags [])

/-- Response of the GET /tags route. -/
inductive TagsResponse where
  | ok (tags : List String)
  | serverError (msg : String)
deriving DecidableEq

/-- The dummy all-zero query vector of length 768, index.js line 115. -/
def dummyVector : Vec := List.replicate 768 0

/-- The handler of GET /tags (index.js lines 111-132): one query call with
the dummy vector and topK 10000, then pure aggregation of the matches. -/
def handleGetTags (queryIdx : Option Vec → Int → Except String (List SearchMatch)) :
    TagsResponse :=
  match queryIdx (some dummyVector) 10000 with
  | .error e => .serverError e
  | .ok ms => .ok (listTagsFrom ms)

/-! Concrete instantiations of the oracles and inputs, used to evaluate the
handlers on specific requests. -/

/-- An embedding oracle that always succeeds, returning one vector per text. -/
def exEmbed1 : List String → Except String (List Vec) :=
  fun ts => .ok (ts.map (fun _ => [0]))

/-- An upsert oracle for the single-index path that always succeeds. -/
def exUpsert1 : List VecRecord → Except String Unit := fun _ => .ok ()

/-- A chunk-indexed embedding oracle that always succeeds. -/
def exEmbedB : Nat → List String → Except String (List Vec) :=
  fun _ ts => .ok (ts.map (fun _ => [0]))

/-- The vectors exEmbedB returns, as a function of chunk index and texts. -/
def exEmbedBData : Nat → List String → List Vec :=
  fun _ ts => ts.map (fun _ => [0])

/-- A chunk-indexed upsert oracle that always succeeds. -/
def exUpsertB : Nat → List VecRecord → Except String Unit := fun _ _ => .ok ()

/-- A chunk-indexed embedding oracle that succeeds on chunk 0 and throws on
every later chunk. -/
def failEmbedAt1 : Nat → List String → Except String (List Vec) :=
  fun k ts => if k = 0 then .ok (ts.map (fun _ => [0])) else .error "embed failed"

/-- An index query oracle that always returns zero matches. -/
def exQueryNone : Option Vec → Int → Except String (List SearchMatch) :=
  fun _ _ => .ok []

/-- A raw image whose tags field is the comma-separated string of the
example in the specification. -/
def imgCommaTags : RawImage :=
  ⟨some "i1", .str "a, b ,, c", none, none, none, none, none⟩

/-- A raw image with an id but no caption, alt, tags or project. -/
def imgNoText : RawImage := ⟨some "x", .absent, none, none, none, none, none⟩

/-- A raw image whose tags field is the string "a,b". -/
def imgStrTags : RawImage := ⟨some "i2", .str "a,b", none, none, none, none, none⟩

/-- A raw image with a caption, used as a generic indexable item. -/
def imgCap : RawImage := ⟨some "c1", .absent, none, some "cap", none, none, none⟩

/-- A batch of 25 indexable items. -/
def ex25 : List RawImage := List.replicate 25 imgCap

/-- A batch of 11 indexable items, spanning two chunks. -/
def ex11 : List RawImage := List.replicate 11 imgCap

/-- A raw image with every optional field supplied. -/
def imgFull : RawImage :=
  ⟨some "f1", .arr ["t1", "t2"], some "alt1", some "cap1", some "proj1",
   some "src1", some "th1"⟩

/-- The vector record that indexing imgFull under the exEmbed oracles
produces. -/
def vrFull : VecRecord := ⟨some "f1", some [0], mkMetadata imgFull⟩

/-- Two index matches whose stored tag arrays overlap, the example of the
specification for tag listing. -/
def exMatches : List SearchMatch :=
  [⟨"m1", 0, some ⟨["a", "b"], "", "", "", "", ""⟩⟩,
   ⟨"m2", 0, some ⟨["b", "c"], "", "", "", "", ""⟩⟩]

/-- A query oracle returning exactly exMatches. -/
def exQueryTwo : Option Vec → Int → Except String (List SearchMatch) :=
  fun _ _ => .ok exMatches

theorem lexLeB_trans {x y z : List Char} (h1 : lexLeB x y = true) (h2 : lexLeB y z = true) :
    lexLeB x z = true := by
  induction x generalizing y z with
  | nil => rfl
  | cons a as ih =>
    cases y with
    | nil => simp [lexLeB] at h1
    | cons b bs =>
      cases z with
      | nil => simp [lexLeB] at h2
      | cons c cs =>
        simp only [lexLeB] at h1 h2 ⊢
        by_cases hab : a.toNat < b.toNat
        · by_cases hbc : b.toNat < c.toNat
          · simp [hab, hbc] at h1 h2 ⊢
            omega
          · simp [hab, hbc] at h1 h2 ⊢
            omega
        · by_cases hbc : b.toNat < c.toNat
          · simp [hab, hbc] at h1 h2 ⊢
            omega
          · simp [hab, hbc] at h1 h2 ⊢
            obtain ⟨hba, h1a⟩ := h1
            obtain ⟨hcb, h2a⟩ := h2
            exact Or.inr ⟨by omega, ih h1a h2a⟩

theorem lexLeB_total (x y : List Char) : lexLeB x y = true ∨ lexLeB y x = true := by
  induction x generalizing y with
  | nil => left; rfl
  | cons c cs ih =>
    cases y with
    | nil => right; rfl
    | cons d ds =>
      by_cases h1 : c.toNat < d.toNat
      · left; simp [lexLeB, h1]
      · by_cases h2 : d.toNat < c.toNat
        · right; simp [lexLeB, h1, h2]
        · have := ih ds
          simpa [lexLeB, h1, h2] using this

instance : IsTrans String (fun a b => strLeB a b = true) :=
  ⟨fun _ _ _ h1 h2 => lexLeB_trans h1 h2⟩

instance : IsTotal String (fun a b => strLeB a b = true) :=
  ⟨fun a b => lexLeB_total a.data b.data⟩

theorem string_eq_empty_iff {s : String} : s = "" ↔ s.data = [] :=
  ⟨fun h => h ▸ rfl, fun h => String.ext (by simpa using h)⟩

theorem jsJoin_ne_empty (sep : String) (x : String) (xs : List String) (hx : x ≠ "") :
    jsJoin sep (x :: xs) ≠ "" := by
  cases xs with
  | nil => simpa [jsJoin] using hx
  | cons y ys =>
    intro h
    rw [string_eq_empty_iff] at h
    simp only [jsJoin, String.data_append, List.append_eq_nil] at h
    exact hx (string_eq_empty_iff.mpr h.1.1)

theorem textForEmbedding_empty_iff (img : RawImage) :
    textForEmbedding img = "" ↔
      (orEmpty img.caption = "" ∧ orEmpty img.alt = "" ∧
       tagsText img.tags = "" ∧ orEmpty img.project = "") := by
  unfold textForEmbedding
  constructor
  · intro h
    have hnil : ([orEmpty img.caption, orEmpty img.alt, tagsText img.tags,
        orEmpty img.project].filter (fun s => s ≠ "")) = [] := by
      cases hf : ([orEmpty img.caption, orEmpty img.alt, tagsText img.tags,
          orEmpty img.project].filter (fun s => s ≠ "")) with
      | nil => rfl
      | cons x xs =>
        exfalso
        have hmem : x ∈ ([orEmpty img.caption, orEmpty img.alt, tagsText img.tags,
            orEmpty img.project].filter (fun s => s ≠ "")) := by
          rw [hf]
          exact List.mem_cons_self x xs
        have hx : x ≠ "" := by simpa using List.of_mem_filter hmem
        rw [hf] at h
        exact jsJoin_ne_empty _ _ _ hx h
    rw [List.filter_eq_nil_iff] at hnil
    refine ⟨?_, ?_, ?_, ?_⟩
    · simpa using hnil (orEmpty img.caption) (by simp)
    · simpa using hnil (orEmpty img.alt) (by simp)
    · simpa using hnil (tagsText img.tags) (by simp)
    · simpa using hnil (orEmpty img.project) (by simp)
  · rintro ⟨h1, h2, h3, h4⟩
    rw [h1, h2, h3, h4]
    rfl

theorem chunksFuel_flatten :
    ∀ (fuel : Nat) (l : List RawImage), l.length ≤ fuel →
      (chunksFuel fuel l).flatten = l := by
  intro fuel
  induction fuel with
  | zero =>
    intro l hl
    cases l with
    | nil => rfl
    | cons x xs => simp at hl
  | succ n ih =>
    intro l hl
    cases l with
    | nil => rfl
    | cons x xs =>
      simp only [chunksFuel, List.flatten_cons]
      rw [ih]
      · exact List.take_append_drop 10 (x :: xs)
      · simp only [List.length_drop]
        have hxc : (x :: xs).length = xs.length + 1 := rfl
        omega

theorem chunks10_flatten (l : List RawImage) : (chunks10 l).flatten = l :=
  chunksFuel_flatten l.length l (le_refl _)

/-- The chunk lengths obtained by slicing a list of the given length into
slices of 10, with the same fuel convention as chunksFuel. -/
def chunkLens : Nat → Nat → List Nat
  | _, 0 => []
  | 0, _ + 1 => []
  | fuel + 1, n + 1 => min 10 (n + 1) :: chunkLens fuel (n + 1 - 10)

theorem chunksFuel_map_length :
    ∀ (fuel : Nat) (l : List RawImage), l.length ≤ fuel →
      (chunksFuel fuel l).map List.length = chunkLens fuel l.length := by
  intro fuel
  induction fuel with
  | zero =>
    intro l hl
    cases l with
    | nil => rfl
    | cons x xs => simp at hl
  | succ n ih =>
    intro l hl
    cases l with
    | nil => rfl
    | cons x xs =>
      simp only [chunksFuel, List.map_cons, List.length_take]
      rw [ih]
      · simp [chunkLens, List.length_drop]
      · simp only [List.length_drop]
        have hxc : (x :: xs).length = xs.length + 1 := rfl
        omega

theorem chunks10_map_length (l : List RawImage) :
    (chunks10 l).map List.length = chunkLens l.length l.length :=
  chunksFuel_map_length l.length l (le_refl _)

theorem chunksFuel_mem :
    ∀ (fuel : Nat) (l : List RawImage), l.length ≤ fuel →
      ∀ c ∈ chunksFuel fuel l, c ≠ [] ∧ c.length ≤ 10 := by
  intro fuel
  induction fuel with
  | zero =>
    intro l hl c hc
    cases l with
    | nil => simp [chunksFuel] at hc
    | cons x xs => simp at hl
  | succ n ih =>
    intro l hl c hc
    cases l with
    | nil => simp [chunksFuel] at hc
    | cons x xs =>
      simp only [chunksFuel, List.mem_cons] at hc
      rcases hc with hc | hc
      · subst hc
        constructor
        · intro hEq
          have hz : (List.take 10 (x :: xs)).length = 0 := by rw [hEq]; rfl
          simp [List.length_take] at hz
        · simp [List.length_take]
      · refine ih (List.drop 10 (x :: xs)) ?_ c hc
        simp only [List.length_drop]
        have hxc : (x :: xs).length = xs.length + 1 := rfl
        omega

theorem chunks10_mem (l : List RawImage) :
    ∀ c ∈ chunks10 l, c ≠ [] ∧ c.length ≤ 10 :=
  chunksFuel_mem l.length l (le_refl _)

theorem mkVectors_map_id (data : List Vec) :
    ∀ (batch : List RawImage) (i : Nat),
      (mkVectors data batch i).map VecRecord.id = batch.map RawImage.id := by
  intro batch
  induction batch with
  | nil => intro i; rfl
  | cons img rest ih =>
    intro i
    simp only [mkVectors, List.map_cons, ih]

theorem mkVectors_getElem (data : List Vec) :
    ∀ (batch : List RawImage) (i j : Nat) (hj : j < batch.length),
      (mkVectors data batch i)[j]? =
        some ⟨(batch.get ⟨j, hj⟩).id, data[i + j]?, mkMetadata (batch.get ⟨j, hj⟩)⟩ := by
  intro batch
  induction batch with
  | nil =>
    intro i j hj
    simp at hj
  | cons img rest ih =>
    intro i j hj
    cases j with
    | zero => simp [mkVectors]
    | succ j2 =>
      have hj2 : j2 < rest.length := by
        simp only [List.length_cons] at hj
        omega
      have hstep := ih (i + 1) j2 hj2
      have hidx : i + (j2 + 1) = i + 1 + j2 := by omega
      simp only [mkVectors, List.getElem?_cons_succ, List.get_cons_succ, hidx]
      exact hstep

theorem mem_mkVectors {r : VecRecord} (data : List Vec) :
    ∀ (batch : List RawImage) (i : Nat), r ∈ mkVectors data batch i →
      ∃ img ∈ batch, r.id = img.id ∧ r.metadata = mkMetadata img := by
  intro batch
  induction batch with
  | nil =>
    intro i hr
    simp [mkVectors] at hr
  | cons img rest ih =>
    intro i hr
    simp only [mkVectors, List.mem_cons] at hr
    rcases hr with hr | hr
    · exact ⟨img, List.mem_cons_self img rest, by rw [hr], by rw [hr]⟩
    · obtain ⟨im2, hmem, hid, hmd⟩ := ih (i + 1) hr
      exact ⟨im2, List.mem_cons_of_mem _ hmem, hid, hmd⟩

theorem processChunks_ok (embed : Nat → List String → Except String (List Vec))
    (upsert : Nat → List VecRecord → Except String Unit)
    (f : Nat → List String → List Vec)
    (hembed : ∀ k ts, embed k ts = .ok (f k ts))
    (hupsert : ∀ k vs, upsert k vs = .ok ()) :
    ∀ (cs : List (List RawImage)) (k : Nat),
      processChunks embed upsert cs k =
        ⟨cs.map (fun c => c.map textForEmbedding),
         (List.enumFrom k cs).map
           (fun p => mkVectors (f p.1 (p.2.map textForEmbedding)) p.2 0),
         (List.enumFrom k cs).map
           (fun p => mkVectors (f p.1 (p.2.map textForEmbedding)) p.2 0),
         cs.flatten.map (fun img => (img.id, true)), none⟩ := by
  intro cs
  induction cs with
  | nil => intro k; rfl
  | cons c rest ih =>
    intro k
    simp only [processChunks, hembed, hupsert, ih]
    simp [List.enumFrom]

theorem processChunks_failAt (embed : Nat → List String → Except String (List Vec))
    (upsert : Nat → List VecRecord → Except String Unit)
    (f : Nat → List String → List Vec) (e : String) (k : Nat)
    (hembedOk : ∀ j ts, j < k → embed j ts = .ok (f j ts))
    (hupsertOk : ∀ j vs, j < k → upsert j vs = .ok ())
    (hfail : (∀ ts, embed k ts = .error e) ∨
      ((∀ ts, embed k ts = .ok (f k ts)) ∧ (∀ vs, upsert k vs = .error e))) :
    ∀ (cs : List (List RawImage)) (i : Nat), i ≤ k → k - i < cs.length →
      (processChunks embed upsert cs i).failure = some e ∧
      (processChunks embed upsert cs i).durable =
        (List.enumFrom i (cs.take (k - i))).map
          (fun p => mkVectors (f p.1 (p.2.map textForEmbedding)) p.2 0) ∧
      (processChunks embed upsert cs i).embedCalls.length = k - i + 1 ∧
      (processChunks embed upsert cs i).upsertCalls.length ≤ k - i + 1 := by
  intro cs
  induction cs with
  | nil =>
    intro i h1 h2
    simp at h2
  | cons c rest ih =>
    intro i hik hlen
    by_cases hie : i = k
    · subst hie
      rcases hfail with hf | ⟨hfe, hfu⟩
      · have hunf : processChunks embed upsert (c :: rest) i =
            ⟨[c.map textForEmbedding], [], [], [], some e⟩ := by
          simp only [processChunks, hf]
        rw [hunf]
        simp [Nat.sub_self]
      · have hunf : processChunks embed upsert (c :: rest) i =
            ⟨[c.map textForEmbedding], [mkVectors (f i (c.map textForEmbedding)) c 0],
             [], [], some e⟩ := by
          simp only [processChunks, hfe, hfu]
        rw [hunf]
        simp [Nat.sub_self]
    · have hik2 : i < k := lt_of_le_of_ne hik hie
      have h1 : embed i (c.map textForEmbedding) = .ok (f i (c.map textForEmbedding)) :=
        hembedOk _ _ hik2
      have h2 : upsert i (mkVectors (f i (c.map textForEmbedding)) c 0) = .ok () :=
        hupsertOk _ _ hik2
      have hrec := ih (i + 1) (by omega) (by simp only [List.length_cons] at hlen; omega)
      have hunf : processChunks embed upsert (c :: rest) i =
          ⟨(c.map textForEmbedding) :: (processChunks embed upsert rest (i + 1)).embedCalls,
           (mkVectors (f i (c.map textForEmbedding)) c 0) ::
             (processChunks embed upsert rest (i + 1)).upsertCalls,
           (mkVectors (f i (c.map textForEmbedding)) c 0) ::
             (processChunks embed upsert rest (i + 1)).durable,
           c.map (fun img => (img.id, true)) ++ (processChunks embed upsert rest (i + 1)).results,
           (processChunks embed upsert rest (i + 1)).failure⟩ := by
        simp only [processChunks, h1, h2]
      rw [hunf]
      obtain ⟨hfa, hd, he1, hu1⟩ := hrec
      refine ⟨hfa, ?_, ?_, ?_⟩
      · have htake : (c :: rest).take (k - i) = c :: rest.take (k - (i + 1)) := by
          have hsub : k - i = (k - (i + 1)) + 1 := by omega
          rw [hsub]
          rfl
        rw [htake]
        simp only [List.enumFrom, List.map_cons]
        rw [hd]
      · simp only [List.length_cons, he1]
        omega
      · simp only [List.length_cons]
        omega

theorem mem_processChunks_upserts {rb : VecRecord}
    (embed : Nat → List String → Except String (List Vec))
    (upsert : Nat → List VecRecord → Except String Unit) :
    ∀ (cs : List (List RawImage)) (k : Nat),
      rb ∈ ((processChunks embed upsert cs k).upsertCalls).flatten →
      ∃ c ∈ cs, ∃ img ∈ c, rb.id = img.id ∧ rb.metadata = mkMetadata img := by
  intro cs
  induction cs with
  | nil =>
    intro k h
    simp [processChunks] at h
  | cons c rest ih =>
    intro k h
    cases hemb : embed k (c.map textForEmbedding) with
    | error e =>
      have hunf : processChunks embed upsert (c :: rest) k =
          ⟨[c.map textForEmbedding], [], [], [], some e⟩ := by
        simp only [processChunks, hemb]
      rw [hunf] at h
      simp at h
    | ok data =>
      cases hup : upsert k (mkVectors data c 0) with
      | error e =>
        have hunf : processChunks embed upsert (c :: rest) k =
            ⟨[c.map textForEmbedding], [mkVectors data c 0], [], [], some e⟩ := by
          simp only [processChunks, hemb, hup]
        rw [hunf] at h
        simp only [List.flatten_cons, List.flatten_nil, List.append_nil, List.mem_singleton] at h
        obtain ⟨img, hmem, hid, hmd⟩ := mem_mkVectors data c 0 h
        exact ⟨c, List.mem_cons_self c rest, img, hmem, hid, hmd⟩
      | ok u =>
        cases u
        have hunf : processChunks embed upsert (c :: rest) k =
            ⟨(c.map textForEmbedding) :: (processChunks embed upsert rest (k + 1)).embedCalls,
             (mkVectors data c 0) :: (processChunks embed upsert rest (k + 1)).upsertCalls,
             (mkVectors data c 0) :: (processChunks embed upsert rest (k + 1)).durable,
             c.map (fun img => (img.id, true)) ++
               (processChunks embed upsert rest (k + 1)).results,
             (processChunks embed upsert rest (k + 1)).failure⟩ := by
          simp only [processChunks, hemb, hup]
        rw [hunf] at h
        simp only [List.flatten_cons, List.mem_append] at h
        rcases h with h | h
        · obtain ⟨img, hmem, hid, hmd⟩ := mem_mkVectors data c 0 h
          exact ⟨c, List.mem_cons_self c rest, img, hmem, hid, hmd⟩
        · obtain ⟨c2, hc2, img, hmem, hid, hmd⟩ := ih (k + 1) h
          exact ⟨c2, List.mem_cons_of_mem _ hc2, img, hmem, hid, hmd⟩

theorem mem_handleIndex_upserts {r : VecRecord}
    (embed : List String → Except String (List Vec))
    (upsert : List VecRecord → Except String Unit) (img : RawImage)
    (h : r ∈ ((handleIndex embed upsert img).2.2).flatten) :
    r.id = img.id ∧ r.metadata = mkMetadata img := by
  unfold handleIndex at h
  cases hid : img.id with
  | none =>
    rw [hid] at h
    simp at h
  | some i =>
    rw [hid] at h
    by_cases hi : i = ""
    · simp [hi] at h
    · simp only [if_neg hi] at h
      by_cases ht : textForEmbedding img = ""
      · simp [ht] at h
      · simp only [if_neg ht] at h
        cases hemb : embed [textForEmbedding img] with
        | error e =>
          rw [hemb] at h
          simp at h
        | ok data =>
          rw [hemb] at h
          dsimp only at h
          cases hup : upsert [⟨some i, data[0]?, mkMetadata img⟩] with
          | error e =>
            rw [hup] at h
            dsimp only at h
            simp only [List.flatten_cons, List.flatten_nil, List.append_nil,
              List.mem_singleton] at h
            rw [h]
            exact ⟨rfl, rfl⟩
          | ok u =>
            rw [hup] at h
            dsimp only at h
            simp only [List.flatten_cons, List.flatten_nil, List.append_nil,
              List.mem_singleton] at h
            rw [h]
            exact ⟨rfl, rfl⟩

theorem mem_insertSet {a t : String} {s : List String} :
    a ∈ insertSet s t ↔ a ∈ s ∨ a = t := by
  unfold insertSet
  by_cases h : t ∈ s
  · simp only [if_pos h]
    exact ⟨Or.inl, fun hh => hh.elim id (fun he => he ▸ h)⟩
  · simp [if_neg h]

theorem nodup_insertSet {s : List String} {t : String} (h : s.Nodup) :
    (insertSet s t).Nodup := by
  unfold insertSet
  by_cases ht : t ∈ s
  · simpa [if_pos ht]
  · simp [if_neg ht, List.nodup_append, h, ht]

theorem mem_foldl_insertSet (ts : List String) :
    ∀ (s : List String) (a : String), a ∈ ts.foldl insertSet s ↔ a ∈ s ∨ a ∈ ts := by
  induction ts with
  | nil => intro s a; simp
  | cons t ts ih =>
    intro s a
    simp only [List.foldl_cons, ih, mem_insertSet, List.mem_cons]
    tauto

theorem nodup_foldl_insertSet (ts : List String) :
    ∀ (s : List String), s.Nodup → (ts.foldl insertSet s).Nodup := by
  induction ts with
  | nil => intro s h; simpa
  | cons t ts ih => intro s h; exact ih _ (nodup_insertSet h)

theorem mem_foldl_addTags (ms : List SearchMatch) :
    ∀ (s : List String) (a : String),
      a ∈ ms.foldl addTags s ↔
        a ∈ s ∨ ∃ m ∈ ms, ∃ md, m.metadata = some md ∧ a ∈ md.tags := by
  induction ms with
  | nil => intro s a; simp
  | cons m ms ih =>
    intro s a
    simp only [List.foldl_cons, ih, List.mem_cons]
    cases hm : m.metadata with
    | none =>
      simp only [addTags, hm]
      constructor
      · rintro (h | ⟨m2, hm2, md, hmd, ha⟩)
        · exact Or.inl h
        · exact Or.inr ⟨m2, Or.inr hm2, md, hmd, ha⟩
      · rintro (h | ⟨m2, hm2 | hm2, md, hmd, ha⟩)
        · exact Or.inl h
        · rw [hm2, hm] at hmd
          exact absurd hmd (by simp)
        · exact Or.inr ⟨m2, hm2, md, hmd, ha⟩
    | some md0 =>
      simp only [addTags, hm, mem_foldl_insertSet]
      constructor
      · rintro ((h | h) | ⟨m2, hm2, md, hmd, ha⟩)
        · exact Or.inl h
        · exact Or.inr ⟨m, Or.inl rfl, md0, hm, h⟩
        · exact Or.inr ⟨m2, Or.inr hm2, md, hmd, ha⟩
      · rintro (h | ⟨m2, hm2 | hm2, md, hmd, ha⟩)
        · exact Or.inl (Or.inl h)
        · rw [hm2, hm] at hmd
          have hmd2 : md0 = md := by injection hmd
          exact Or.inl (Or.inr (hmd2 ▸ ha))
        · exact Or.inr ⟨m2, hm2, md, hmd, ha⟩

theorem nodup_foldl_addTags (ms : List SearchMatch) :
    ∀ (s : List String), s.Nodup → (ms.foldl addTags s).Nodup := by
  induction ms with
  | nil => intro s h; simpa
  | cons m ms ih =>
    intro s h
    refine ih _ ?_
    unfold addTags
    cases m.metadata with
    | none => exact h
    | some md => exact nodup_foldl_insertSet _ _ h

theorem sortStrings_perm (l : List String) : (sortStrings l).Perm l :=
  List.perm_insertionSort _ l

theorem sortStrings_sorted (l : List String) :
    List.Sorted (fun a b => strLeB a b = true) (sortStrings l) :=
  List.sorted_insertionSort _ l

theorem mem_sortStrings {a : String} {l : List String} : a ∈ sortStrings l ↔ a ∈ l :=
  (sortStrings_perm l).mem_iff

theorem nodup_sortStrings {l : List String} (h : l.Nodup) : (sortStrings l).Nodup :=
  ((sortStrings_perm l).nodup_iff).mpr h

theorem listTagsFrom_spec (ms : List SearchMatch) :
    List.Sorted (fun a b => strLeB a b = true) (listTagsFrom ms) ∧
    (listTagsFrom ms).Nodup ∧
    (∀ t, t ∈ listTagsFrom ms ↔ ∃ m ∈ ms, ∃ md, m.metadata = some md ∧ t ∈ md.tags) := by
  refine ⟨sortStrings_sorted _, nodup_sortStrings (nodup_foldl_addTags ms [] (by simp)), ?_⟩
  intro t
  rw [listTagsFrom, mem_sortStrings, mem_foldl_addTags]
  simp

theorem handleIndexBatch_run (embed : Nat → List String → Except String (List Vec))
    (upsert : Nat → List VecRecord → Except String Unit)
    (l : List RawImage) (hne : l ≠ []) :
    handleIndexBatch embed upsert (.arr l) =
      (match (processChunks embed upsert (chunks10 l) 0).failure with
       | some e => .serverError e
       | none => .ok (processChunks embed upsert (chunks10 l) 0).results.length
           (processChunks embed upsert (chunks10 l) 0).results,
       processChunks embed upsert (chunks10 l) 0) := by
  unfold handleIndexBatch
  dsimp only
  rw [if_neg (by simp [List.isEmpty_iff, hne])]
  cases hf : (processChunks embed upsert (chunks10 l) 0).failure with
  | some e => rfl
  | none => rfl

/-- Claim C9: indexBatch fails with the EmptyBatch client error exactly when
the images field is missing, not an array, or an empty array, and in that
case no embedding call and no upsert call is issued. -/
theorem C9_empty_batch (embed : Nat → List String → Except String (List Vec))
    (upsert : Nat → List VecRecord → Except String Unit) (images : ImagesField) :
    ((handleIndexBatch embed upsert images).1 = .clientError emptyBatchMsg ↔
      images = .notArray ∨ images = .arr []) ∧
    ((images = .notArray ∨ images = .arr []) →
      (handleIndexBatch embed upsert images).2.embedCalls = [] ∧
      (handleIndexBatch embed upsert images).2.upsertCalls = []) := by
  constructor
  · constructor
    · intro h
      cases images with
      | notArray => exact Or.inl rfl
      | arr l =>
        cases l with
        | nil => exact Or.inr rfl
        | cons x xs =>
          exfalso
          rw [handleIndexBatch_run embed upsert (x :: xs) (by simp)] at h
          cases hf : (processChunks embed upsert (chunks10 (x :: xs)) 0).failure with
          | some e =>
            rw [hf] at h
            simp at h
          | none =>
            rw [hf] at h
            simp at h
    · rintro (rfl | rfl) <;> rfl
  · rintro (rfl | rfl) <;> exact ⟨rfl, rfl⟩

/-- Witness for C9_empty_batch: a missing or non-array images field is
rejected with the EmptyBatch message and issues no calls. -/
theorem C9_empty_batch_witness :
    (handleIndexBatch exEmbedB exUpsertB .notArray).1 = .clientError emptyBatchMsg ∧
    (handleIndexBatch exEmbedB exUpsertB .notArray).2.embedCalls = [] ∧
    (handleIndexBatch exEmbedB exUpsertB .notArray).2.upsertCalls = [] :=
  ⟨(C9_empty_batch exEmbedB exUpsertB .notArray).1.mpr (Or.inl rfl),
   (C9_empty_batch exEmbedB exUpsertB .notArray).2 (Or.inl rfl)⟩

/-- Claim C7: search fails with the InvalidQuery client error exactly when
the query is empty or not a text value; a valid query whose index lookup
returns zero matches is not an error and yields the empty result list. -/
theorem C7_invalid_query (embed : List String → Except String (List Vec))
    (queryIdx : Option Vec → Int → Except String (List SearchMatch))
    (q : QueryField) (limit : Option Int) (s : String) (data : List Vec)
    (hs : s ≠ "") (hembed : embed [s] = .ok data)
    (hq : queryIdx data[0]? (min (limit.getD 20) 100) = .ok []) :
    ((handleSearch embed queryIdx q limit).1 = .clientError invalidQueryMsg ↔
      ∀ t, q = .str t → t = "") ∧
    (handleSearch embed queryIdx (.str s) limit).1 = .ok [] := by
  constructor
  · constructor
    · intro h t hqt
      subst hqt
      by_contra hne
      unfold handleSearch at h
      dsimp only at h
      rw [if_neg hne] at h
      cases he : embed [t] with
      | error e =>
        rw [he] at h
        simp at h
      | ok d =>
        rw [he] at h
        dsimp only at h
        cases hqi : queryIdx d[0]? (min (limit.getD 20) 100) with
        | error e =>
          rw [hqi] at h
          simp at h
        | ok ms =>
          rw [hqi] at h
          simp at h
    · intro h
      cases q with
      | str t =>
        have ht : t = "" := h t rfl
        subst ht
        rfl
      | nonString b => rfl
      | absent => rfl
  · unfold handleSearch
    dsimp only
    rw [if_neg hs, hembed]
    dsimp only
    rw [hq]
    rfl

/-- Witness for C7_invalid_query: the empty query is rejected with the
InvalidQuery message, and a valid query with zero matches returns the empty
result list. -/
theorem C7_invalid_query_witness :
    (handleSearch exEmbed1 exQueryNone (.str "") (some 20)).1 =
      .clientError invalidQueryMsg ∧
    (handleSearch exEmbed1 exQueryNone (.str "cats") (some 20)).1 = .ok [] := by
  have h := C7_invalid_query exEmbed1 exQueryNone (.str "") (some 20) "cats" [[0]]
    (by decide) rfl rfl
  refine ⟨h.1.mpr ?_, h.2⟩
  intro t ht
  injection ht with h2
  exact h2.symm

/-- Claim C5 is false as stated: with limit 0 the topK passed to the index
is Math.min(0, 100) = 0, not clamp(0, 1, 100) = 1: the code applies no lower
bound of 1. -/
theorem C5_counterexample :
    (handleSearch exEmbed1 exQueryNone (.str "q") (some 0)).2 = [0] ∧
    (0 : Int) ≠ max 1 (min 0 100) := by
  constructor
  · rfl
  · decide

/-- Claim C5 (amended): for every valid search query and caller-supplied
integer limit, the topK passed to the vector index equals min(limit, 100):
it never exceeds 100, but there is no lower clamp to 1, so a non-positive
limit is passed through unchanged. -/
theorem C5_topk_min (embed : List String → Except String (List Vec))
    (queryIdx : Option Vec → Int → Except String (List SearchMatch))
    (s : String) (lim : Int) (data : List Vec)
    (hs : s ≠ "") (hembed : embed [s] = .ok data) :
    (handleSearch embed queryIdx (.str s) (some lim)).2 = [min lim 100] ∧
    min lim 100 ≤ 100 := by
  constructor
  · unfold handleSearch
    dsimp only
    rw [if_neg hs, hembed]
    dsimp only [Option.getD_some]
    cases hqi : queryIdx data[0]? (min lim 100) with
    | error e => rfl
    | ok ms => rfl
  · exact min_le_right lim 100

/-- Witness for C5_topk_min: limit 500 is clamped down to topK 100. -/
theorem C5_topk_min_witness :
    (handleSearch exEmbed1 exQueryNone (.str "query") (some 500)).2 =
      [min 500 100] ∧
    min (500 : Int) 100 ≤ 100 :=
  C5_topk_min exEmbed1 exQueryNone "query" 500 [[0]] (by decide) rfl

theorem handleIndexBatch_ok (embed : Nat → List String → Except String (List Vec))
    (upsert : Nat → List VecRecord → Except String Unit)
    (f : Nat → List String → List Vec)
    (hembed : ∀ k ts, embed k ts = .ok (f k ts))
    (hupsert : ∀ k vs, upsert k vs = .ok ())
    (l : List RawImage) (hne : l ≠ []) :
    (handleIndexBatch embed upsert (.arr l)).1 =
      .ok l.length (l.map (fun img => (img.id, true))) ∧
    (handleIndexBatch embed upsert (.arr l)).2.embedCalls =
      (chunks10 l).map (fun c => c.map textForEmbedding) ∧
    (handleIndexBatch embed upsert (.arr l)).2.upsertCalls =
      (List.enumFrom 0 (chunks10 l)).map
        (fun p => mkVectors (f p.1 (p.2.map textForEmbedding)) p.2 0) ∧
    (handleIndexBatch embed upsert (.arr l)).2.durable =
      (List.enumFrom 0 (chunks10 l)).map
        (fun p => mkVectors (f p.1 (p.2.map textForEmbedding)) p.2 0) := by
  have hrun := processChunks_ok embed upsert f hembed hupsert (chunks10 l) 0
  rw [handleIndexBatch_run embed upsert l hne, hrun]
  dsimp only
  rw [chunks10_flatten l]
  refine ⟨?_, rfl, rfl, rfl⟩
  simp [List.length_map]

/-- Claim C3 is false as stated: an indexBatch item whose caption, alt, tags
and project are all empty is not rejected with NoEmbeddableText; the batch
handler has no such per-item check, embeds the empty string for it, upserts
it, and reports it as a success. -/
theorem C3_counterexample :
    (handleIndexBatch exEmbedB exUpsertB (.arr [imgNoText])).1 =
      .ok 1 [(some "x", true)] ∧
    (handleIndexBatch exEmbedB exUpsertB (.arr [imgNoText])).2.embedCalls = [[""]] ∧
    (handleIndexBatch exEmbedB exUpsertB (.arr [imgNoText])).2.upsertCalls.length = 1 :=
  ⟨rfl, rfl, rfl⟩

/-- Claim C3 (amended): indexOne rejects a record whose caption, alt, tags
and project components are all empty with the NoEmbeddableText client error,
and accepts it whenever any of the four is non-empty; indexBatch applies no
such per-item check and indexes every item of a non-empty batch, including
items with no embeddable text. -/
theorem C3_no_embeddable_text (embed : List String → Except String (List Vec))
    (upsert : List VecRecord → Except String Unit)
    (embedB : Nat → List String → Except String (List Vec))
    (upsertB : Nat → List VecRecord → Except String Unit)
    (f : List String → List Vec) (fB : Nat → List String → List Vec)
    (img : RawImage) (i : String) (imgs : List RawImage)
    (hid : img.id = some i) (hi : i ≠ "")
    (hembed : ∀ ts, embed ts = .ok (f ts))
    (hupsert : ∀ vs, upsert vs = .ok ())
    (hembedB : ∀ k ts, embedB k ts = .ok (fB k ts))
    (hupsertB : ∀ k vs, upsertB k vs = .ok ())
    (hne : imgs ≠ []) :
    ((handleIndex embed upsert img).1 = .clientError noTextMsg ↔
      orEmpty img.caption = "" ∧ orEmpty img.alt = "" ∧
      tagsText img.tags = "" ∧ orEmpty img.project = "") ∧
    ((handleIndex embed upsert img).1 = .ok i ↔
      ¬(orEmpty img.caption = "" ∧ orEmpty img.alt = "" ∧
        tagsText img.tags = "" ∧ orEmpty img.project = "")) ∧
    (handleIndexBatch embedB upsertB (.arr imgs)).1 =
      .ok imgs.length (imgs.map (fun im => (im.id, true))) := by
  have herr : textForEmbedding img = "" →
      (handleIndex embed upsert img).1 = .clientError noTextMsg := by
    intro ht
    unfold handleIndex
    simp only [hid, if_neg hi, if_pos ht]
  have hok : textForEmbedding img ≠ "" →
      (handleIndex embed upsert img).1 = .ok i := by
    intro ht
    unfold handleIndex
    simp only [hid, if_neg hi, if_neg ht, hembed, hupsert]
  refine ⟨?_, ?_, (handleIndexBatch_ok embedB upsertB fB hembedB hupsertB imgs hne).1⟩
  · rw [← textForEmbedding_empty_iff]
    constructor
    · intro h
      by_contra ht
      rw [hok ht] at h
      exact absurd h (by simp)
    · exact herr
  · rw [← textForEmbedding_empty_iff]
    constructor
    · intro h ht
      rw [herr ht] at h
      exact absurd h (by simp)
    · exact hok
  
/-- Witness for C3_no_embeddable_text: a record with only an id is rejected
with NoEmbeddableText by indexOne, and a record with only a caption is
accepted. -/
theorem C3_no_embeddable_text_witness :
    (handleIndex exEmbed1 exUpsert1 imgNoText).1 = .clientError noTextMsg ∧
    (handleIndex exEmbed1 exUpsert1 imgCap).1 = .ok "c1" := by
  have h1 := C3_no_embeddable_text exEmbed1 exUpsert1 exEmbedB exUpsertB
    (fun ts => ts.map (fun _ => [0])) exEmbedBData imgNoText "x" [imgCap]
    rfl (by decide) (fun ts => rfl) (fun vs => rfl) (fun k ts => rfl) (fun k vs => rfl)
    (by decide)
  have h2 := C3_no_embeddable_text exEmbed1 exUpsert1 exEmbedB exUpsertB
    (fun ts => ts.map (fun _ => [0])) exEmbedBData imgCap "c1" [imgCap]
    rfl (by decide) (fun ts => rfl) (fun vs => rfl) (fun k ts => rfl) (fun k vs => rfl)
    (by decide)
  exact ⟨h1.1.mpr (by decide), h2.2.1.mpr (by decide)⟩

/-- Claim C6: indexBatch partitions the input into chunks of at most 10
preserving order and content, issues per chunk exactly one embedding call
carrying the whole chunk's texts followed by exactly one upsert call, the
idx-th vector of the embedding response being assigned to the idx-th input
of the chunk, and a 25-item batch yields exactly 3 embedding calls of sizes
10, 10, 5 and 3 upsert calls, in order. -/
theorem C6_chunking (embed : Nat → List String → Except String (List Vec))
    (upsert : Nat → List VecRecord → Except String Unit)
    (fB : Nat → List String → List Vec) (imgs : List RawImage)
    (hembedB : ∀ k ts, embed k ts = .ok (fB k ts))
    (hupsertB : ∀ k vs, upsert k vs = .ok ())
    (hne : imgs ≠ []) :
    (chunks10 imgs).flatten = imgs ∧
    (∀ c ∈ chunks10 imgs, c ≠ [] ∧ c.length ≤ 10) ∧
    (handleIndexBatch embed upsert (.arr imgs)).2.embedCalls =
      (chunks10 imgs).map (fun c => c.map textForEmbedding) ∧
    (handleIndexBatch embed upsert (.arr imgs)).2.upsertCalls =
      (List.enumFrom 0 (chunks10 imgs)).map
        (fun p => mkVectors (fB p.1 (p.2.map textForEmbedding)) p.2 0) ∧
    (∀ (d : List Vec) (c : List RawImage) (j : Nat) (hj : j < c.length),
      (mkVectors d c 0)[j]? =
        some ⟨(c.get ⟨j, hj⟩).id, d[j]?, mkMetadata (c.get ⟨j, hj⟩)⟩) ∧
    (imgs.length = 25 →
      (handleIndexBatch embed upsert (.arr imgs)).2.embedCalls.map List.length =
        [10, 10, 5] ∧
      (handleIndexBatch embed upsert (.arr imgs)).2.upsertCalls.length = 3) := by
  obtain ⟨hresp, hec, huc, hdur⟩ :=
    handleIndexBatch_ok embed upsert fB hembedB hupsertB imgs hne
  refine ⟨chunks10_flatten imgs, chunks10_mem imgs, hec, huc, ?_, ?_⟩
  · intro d c j hj
    have h := mkVectors_getElem d c 0 j hj
    simpa using h
  · intro h25
    have hml : ∀ (cs : List (List RawImage)),
        (cs.map (fun c => c.map textForEmbedding)).map List.length =
          cs.map List.length := by
      intro cs
      simp
    have hcl := chunks10_map_length imgs
    rw [h25] at hcl
    constructor
    · rw [hec, hml, hcl]
      rfl
    · rw [huc]
      have h4 := congrArg List.length hcl
      simp only [List.length_map] at h4
      simp only [List.length_map, List.enumFrom_length, h4]
      rfl

/-- Witness for C6_chunking: a 25-item batch yields 3 embedding calls of
sizes 10, 10, 5 and 3 upsert calls. -/
theorem C6_chunking_witness :
    (handleIndexBatch exEmbedB exUpsertB (.arr ex25)).2.embedCalls.map List.length =
      [10, 10, 5] ∧
    (handleIndexBatch exEmbedB exUpsertB (.arr ex25)).2.upsertCalls.length = 3 :=
  (C6_chunking exEmbedB exUpsertB exEmbedBData ex25 (fun _ _ => rfl) (fun _ _ => rfl)
    (by decide)).2.2.2.2.2 (by decide)

theorem handleIndexBatch_snd (embed : Nat → List String → Except String (List Vec))
    (upsert : Nat → List VecRecord → Except String Unit)
    (l : List RawImage) (hne : l ≠ []) :
    (handleIndexBatch embed upsert (.arr l)).2 =
      processChunks embed upsert (chunks10 l) 0 := by
  rw [handleIndexBatch_run embed upsert l hne]

theorem enumFrom_mkVectors_ids (f : Nat → List String → List Vec) :
    ∀ (cs : List (List RawImage)) (i : Nat),
      ((List.enumFrom i cs).map
        (fun p => mkVectors (f p.1 (p.2.map textForEmbedding)) p.2 0)).flatten.map
          VecRecord.id = cs.flatten.map RawImage.id := by
  intro cs
  induction cs with
  | nil => intro i; rfl
  | cons c rest ih =>
    intro i
    simp only [List.enumFrom, List.map_cons, List.flatten_cons, List.map_append,
      mkVectors_map_id, ih]

theorem mem_handleIndexBatch_upserts {rb : VecRecord}
    (embedB : Nat → List String → Except String (List Vec))
    (upsertB : Nat → List VecRecord → Except String Unit) (imgs : List RawImage)
    (hrb : rb ∈ ((handleIndexBatch embedB upsertB (.arr imgs)).2.upsertCalls).flatten) :
    ∃ img2 ∈ imgs, rb.id = img2.id ∧ rb.metadata = mkMetadata img2 := by
  cases imgs with
  | nil =>
    have hempty : (handleIndexBatch embedB upsertB (.arr [])).2.upsertCalls = [] := rfl
    rw [hempty] at hrb
    simp at hrb
  | cons x xs =>
    rw [handleIndexBatch_snd embedB upsertB (x :: xs) (by simp)] at hrb
    obtain ⟨c, hc, img2, hmem, hid2, hmd⟩ :=
      mem_processChunks_upserts embedB upsertB (chunks10 (x :: xs)) 0 hrb
    refine ⟨img2, ?_, hid2, hmd⟩
    rw [← chunks10_flatten (x :: xs)]
    exact List.mem_flatten.mpr ⟨c, hc, hmem⟩

/-- Claim C2 is false as stated: when the embedding call for chunk 2 of a
batch fails, the worker returns a plain 500 error response carrying only the
error message; no cumulative success count for the completed prefix is
surfaced, even though the 10 items of chunk 1 were durably upserted. -/
theorem C2_counterexample :
    (handleIndexBatch failEmbedAt1 exUpsertB (.arr ex11)).1 =
      .serverError "embed failed" ∧
    reportedCount (handleIndexBatch failEmbedAt1 exUpsertB (.arr ex11)).1 = none ∧
    (handleIndexBatch failEmbedAt1 exUpsertB (.arr ex11)).2.durable.flatten.length = 10 :=
  ⟨rfl, rfl, rfl⟩

/-- Claim C2 (amended): chunks are processed sequentially, so when the
embedding or upsert call for chunk k fails, the chunks before k remain
durably indexed and chunks from k onward are unprocessed; however the
response is a server error carrying only the error message — the cumulative
success count of the completed prefix is not surfaced to the caller. -/
theorem C2_partial_batch (embed : Nat → List String → Except String (List Vec))
    (upsert : Nat → List VecRecord → Except String Unit)
    (f : Nat → List String → List Vec) (e : String) (k : Nat) (imgs : List RawImage)
    (hne : imgs ≠ []) (hk : k < (chunks10 imgs).length)
    (hembedOk : ∀ j ts, j < k → embed j ts = .ok (f j ts))
    (hupsertOk : ∀ j vs, j < k → upsert j vs = .ok ())
    (hfail : (∀ ts, embed k ts = .error e) ∨
      ((∀ ts, embed k ts = .ok (f k ts)) ∧ (∀ vs, upsert k vs = .error e))) :
    (handleIndexBatch embed upsert (.arr imgs)).1 = .serverError e ∧
    reportedCount (handleIndexBatch embed upsert (.arr imgs)).1 = none ∧
    (handleIndexBatch embed upsert (.arr imgs)).2.durable =
      (List.enumFrom 0 ((chunks10 imgs).take k)).map
        (fun p => mkVectors (f p.1 (p.2.map textForEmbedding)) p.2 0) ∧
    (handleIndexBatch embed upsert (.arr imgs)).2.durable.flatten.map VecRecord.id =
      ((chunks10 imgs).take k).flatten.map RawImage.id ∧
    (handleIndexBatch embed upsert (.arr imgs)).2.embedCalls.length = k + 1 ∧
    (handleIndexBatch embed upsert (.arr imgs)).2.upsertCalls.length ≤ k + 1 := by
  obtain ⟨hf, hd, he1, hu1⟩ := processChunks_failAt embed upsert f e k hembedOk hupsertOk
    hfail (chunks10 imgs) 0 (Nat.zero_le k) (by simpa using hk)
  have hd0 : (processChunks embed upsert (chunks10 imgs) 0).durable =
      (List.enumFrom 0 ((chunks10 imgs).take k)).map
        (fun p => mkVectors (f p.1 (p.2.map textForEmbedding)) p.2 0) := by
    simpa using hd
  have hpair : handleIndexBatch embed upsert (.arr imgs) =
      (.serverError e, processChunks embed upsert (chunks10 imgs) 0) := by
    rw [handleIndexBatch_run embed upsert imgs hne, hf]
  rw [hpair]
  refine ⟨rfl, rfl, hd0, ?_, ?_, ?_⟩
  · show (processChunks embed upsert (chunks10 imgs) 0).durable.flatten.map VecRecord.id = _
    rw [hd0]
    exact enumFrom_mkVectors_ids f ((chunks10 imgs).take k) 0
  · show (processChunks embed upsert (chunks10 imgs) 0).embedCalls.length = k + 1
    simpa using he1
  · show (processChunks embed upsert (chunks10 imgs) 0).upsertCalls.length ≤ k + 1
    simpa using hu1

/-- Witness for C2_partial_batch: an 11-item batch whose second embedding
call throws yields a server error with no reported count, while the first
chunk's 10 records remain durable. -/
theorem C2_partial_batch_witness :
    (handleIndexBatch failEmbedAt1 exUpsertB (.arr ex11)).1 =
      .serverError "embed failed" ∧
    reportedCount (handleIndexBatch failEmbedAt1 exUpsertB (.arr ex11)).1 = none ∧
    (handleIndexBatch failEmbedAt1 exUpsertB (.arr ex11)).2.durable.flatten.map
      VecRecord.id = ((chunks10 ex11).take 1).flatten.map RawImage.id ∧
    (handleIndexBatch failEmbedAt1 exUpsertB (.arr ex11)).2.embedCalls.length = 2 := by
  have h := C2_partial_batch failEmbedAt1 exUpsertB exEmbedBData "embed failed" 1 ex11
    (by decide) (by decide)
    (by
      intro j ts hj
      have hj0 : j = 0 := by omega
      subst hj0
      rfl)
    (fun j vs hj => rfl)
    (Or.inl (fun ts => rfl))
  exact ⟨h.1, h.2.1, h.2.2.2.1, h.2.2.2.2.1⟩

/-- Claim C1 is false as stated: comma-string tags are split on commas and
each segment trimmed, but empty segments are kept rather than dropped, so
indexOne stores the tags ["a","b","","c"] for the raw string "a, b ,, c",
not ["a","b","c"]. -/
theorem C1_counterexample :
    (handleIndex exEmbed1 exUpsert1 imgCommaTags).2.2 =
      [[⟨some "i1", some [0], ⟨["a", "b", "", "c"], "", "", "", "", ""⟩⟩]] ∧
    (mkMetadata imgCommaTags).tags ≠ ["a", "b", "c"] ∧
    "" ∈ (mkMetadata imgCommaTags).tags :=
  ⟨rfl, by decide, by decide⟩

/-- Claim C1 (amended): the tags stored in a record's metadata by indexOne
and indexBatch are taken verbatim when the raw tags field is an array; a
single string is split on commas and each segment trimmed of whitespace,
but empty segments are kept rather than dropped, so the string "a, b ,, c"
yields ["a","b","","c"]; an absent tags field is stored as [""]. -/
theorem C1_tags_stored (embed : List String → Except String (List Vec))
    (upsert : List VecRecord → Except String Unit)
    (embedB : Nat → List String → Except String (List Vec))
    (upsertB : Nat → List VecRecord → Except String Unit)
    (img : RawImage) (imgs : List RawImage) (r rb : VecRecord)
    (hr : r ∈ ((handleIndex embed upsert img).2.2).flatten)
    (hrb : rb ∈ ((handleIndexBatch embedB upsertB (.arr imgs)).2.upsertCalls).flatten) :
    r.metadata.tags = metaTags img.tags ∧
    (∃ img2 ∈ imgs, rb.metadata.tags = metaTags img2.tags) ∧
    (∀ l, metaTags (.arr l) = l) ∧
    metaTags (.str "a, b ,, c") = ["a", "b", "", "c"] ∧
    metaTags .absent = [""] := by
  refine ⟨?_, ?_, fun l => rfl, by decide, rfl⟩
  · rw [(mem_handleIndex_upserts embed upsert img hr).2]
    rfl
  · obtain ⟨img2, hmem, hid2, hmd⟩ := mem_handleIndexBatch_upserts embedB upsertB imgs hrb
    refine ⟨img2, hmem, ?_⟩
    rw [hmd]
    rfl

/-- Witness for C1_tags_stored at the comma-string example. -/
theorem C1_tags_stored_witness :
    (⟨some "i1", some [0], mkMetadata imgCommaTags⟩ : VecRecord).metadata.tags =
      metaTags imgCommaTags.tags ∧
    metaTags (.str "a, b ,, c") = ["a", "b", "", "c"] := by
  have h := C1_tags_stored exEmbed1 exUpsert1 exEmbedB exUpsertB imgCommaTags
    [imgCommaTags] ⟨some "i1", some [0], mkMetadata imgCommaTags⟩
    ⟨some "i1", some [0], mkMetadata imgCommaTags⟩ (by decide) (by decide)
  exact ⟨h.1, h.2.2.2.1⟩

/-- Claim C4 is false as stated: for comma-string tags the raw string itself
is embedded, not the normalized tags joined with single spaces — indexOne
embeds the text "a,b" for the raw tags string "a,b", while the normalized
stored tags joined with spaces would be "a b". -/
theorem C4_counterexample :
    (handleIndex exEmbed1 exUpsert1 imgStrTags).2.1 = [["a,b"]] ∧
    jsJoin " " (metaTags imgStrTags.tags) = "a b" ∧
    textForEmbedding imgStrTags = "a,b" ∧
    ("a,b" : String) ≠ "a b" :=
  ⟨rfl, rfl, rfl, by decide⟩

/-- Claim C4 (amended): the text submitted for embedding concatenates, in
fixed order, caption, alt, the tags component and project, skipping every
empty component and joining the rest with ". "; the tags component is the
array joined with single spaces when the raw tags are an array, and the raw
string itself (not the normalized tags) when they are a string. -/
theorem C4_text_for_embedding (embed : List String → Except String (List Vec))
    (upsert : List VecRecord → Except String Unit)
    (embedB : Nat → List String → Except String (List Vec))
    (upsertB : Nat → List VecRecord → Except String Unit)
    (fB : Nat → List String → List Vec)
    (img : RawImage) (i : String) (imgs : List RawImage)
    (hid : img.id = some i) (hi : i ≠ "") (ht : textForEmbedding img ≠ "")
    (hembedB : ∀ k ts, embedB k ts = .ok (fB k ts))
    (hupsertB : ∀ k vs, upsertB k vs = .ok ()) (hne : imgs ≠ []) :
    (handleIndex embed upsert img).2.1 = [[textForEmbedding img]] ∧
    (handleIndexBatch embedB upsertB (.arr imgs)).2.embedCalls =
      (chunks10 imgs).map (fun c => c.map textForEmbedding) ∧
    (∀ im : RawImage, textForEmbedding im =
      jsJoin ". " (([orEmpty im.caption, orEmpty im.alt, tagsText im.tags,
        orEmpty im.project]).filter (fun s => s ≠ ""))) ∧
    (∀ l, tagsText (.arr l) = jsJoin " " l) ∧
    (∀ s, tagsText (.str s) = s) := by
  refine ⟨?_, (handleIndexBatch_ok embedB upsertB fB hembedB hupsertB imgs hne).2.1,
    fun im => rfl, fun l => rfl, fun s => rfl⟩
  cases he : embed [textForEmbedding img] with
  | error e =>
    unfold handleIndex
    simp only [hid, if_neg hi, if_neg ht, he]
  | ok d =>
    cases hu : upsert [⟨some i, d[0]?, mkMetadata img⟩] with
    | error e =>
      unfold handleIndex
      simp only [hid, if_neg hi, if_neg ht, he, hu]
    | ok u =>
      unfold handleIndex
      simp only [hid, if_neg hi, if_neg ht, he, hu]

/-- Witness for C4_text_for_embedding: the record with tags string "a,b"
leads to exactly one embedding call carrying that raw string. -/
theorem C4_text_for_embedding_witness :
    (handleIndex exEmbed1 exUpsert1 imgStrTags).2.1 = [[textForEmbedding imgStrTags]] ∧
    tagsText (.str "a,b") = "a,b" := by
  have h := C4_text_for_embedding exEmbed1 exUpsert1 exEmbedB exUpsertB exEmbedBData
    imgStrTags "i2" [imgStrTags] rfl (by decide) (by decide)
    (fun k ts => rfl) (fun k vs => rfl) (by decide)
  exact ⟨h.1, h.2.2.2.2 "a,b"⟩

/-- Claim C10: every record upserted by indexOne or indexBatch carries a
metadata object with exactly the six fields tags, alt, caption, project,
src and thumb (the fields of the Metadata structure), where tags is always
the normalized tag sequence and each of the other five is the corresponding
input string, absent optional inputs being stored as the empty string. -/
theorem C10_metadata_shape (embed : List String → Except String (List Vec))
    (upsert : List VecRecord → Except String Unit)
    (embedB : Nat → List String → Except String (List Vec))
    (upsertB : Nat → List VecRecord → Except String Unit)
    (img : RawImage) (imgs : List RawImage) (r rb : VecRecord)
    (hr : r ∈ ((handleIndex embed upsert img).2.2).flatten)
    (hrb : rb ∈ ((handleIndexBatch embedB upsertB (.arr imgs)).2.upsertCalls).flatten) :
    r.metadata = ⟨metaTags img.tags, orEmpty img.alt, orEmpty img.caption,
      orEmpty img.project, orEmpty img.src, orEmpty img.thumb⟩ ∧
    ∃ img2 ∈ imgs, rb.metadata = ⟨metaTags img2.tags, orEmpty img2.alt,
      orEmpty img2.caption, orEmpty img2.project, orEmpty img2.src,
      orEmpty img2.thumb⟩ := by
  constructor
  · exact (mem_handleIndex_upserts embed upsert img hr).2
  · obtain ⟨img2, hmem, hid2, hmd⟩ := mem_handleIndexBatch_upserts embedB upsertB imgs hrb
    exact ⟨img2, hmem, hmd⟩

/-- Witness for C10_metadata_shape at a record with all fields supplied. -/
theorem C10_metadata_shape_witness :
    vrFull.metadata = ⟨metaTags imgFull.tags, orEmpty imgFull.alt, orEmpty imgFull.caption,
      orEmpty imgFull.project, orEmpty imgFull.src, orEmpty imgFull.thumb⟩ ∧
    ∃ img2 ∈ [imgFull], vrFull.metadata = ⟨metaTags img2.tags, orEmpty img2.alt,
      orEmpty img2.caption, orEmpty img2.project, orEmpty img2.src,
      orEmpty img2.thumb⟩ :=
  C10_metadata_shape exEmbed1 exUpsert1 exEmbedB exUpsertB imgFull [imgFull]
    vrFull vrFull (by decide) (by decide)

/-- Claim C8: listTags returns exactly the deduplicated union of the tag
entries across all records returned by the index query, sorted ascending in
the default JavaScript string order. -/
theorem C8_list_tags (queryIdx : Option Vec → Int → Except String (List SearchMatch))
    (ms : List SearchMatch)
    (hq : queryIdx (some dummyVector) 10000 = .ok ms) :
    handleGetTags queryIdx = .ok (listTagsFrom ms) ∧
    List.Sorted (fun a b => strLeB a b = true) (listTagsFrom ms) ∧
    (listTagsFrom ms).Nodup ∧
    (∀ t, t ∈ listTagsFrom ms ↔ ∃ m ∈ ms, ∃ md, m.metadata = some md ∧ t ∈ md.tags) := by
  obtain ⟨h1, h2, h3⟩ := listTagsFrom_spec ms
  refine ⟨?_, h1, h2, h3⟩
  unfold handleGetTags
  rw [hq]

/-- Witness for C8_list_tags: records with tags ["a","b"] and ["b","c"]
yield exactly ["a","b","c"]. -/
theorem C8_list_tags_witness :
    handleGetTags exQueryTwo = .ok (listTagsFrom exMatches) ∧
    listTagsFrom exMatches = ["a", "b", "c"] :=
  ⟨(C8_list_tags exQueryTwo exMatches rfl).1, by decide⟩

end GallerySearch
